import Mathlib

/-!
Shallow embedding of the netphys measurement pipeline (ping.py and
pingtest.py): the line-parsing state machine of `Ping.ping`, its
latest-only buffering policy and bounded-count mode, and the `PingTest`
ledger with selector resolution, per-entry histories, statistics and
removal.  Python `bytes` objects are lists of byte values; Python dynamic
typing is embedded with small sum types at the two places it is
load-bearing in the source: the `str` versus `bytes` distinction in
`'Unreachable' in line`, and the `isinstance(address, int)` test on the
value returned by `__get_address_index`.  Round-trip times (Python floats
parsed from plain decimal literals) are modelled as exact rationals.
-/

deriving instance DecidableEq for Except

namespace Netphys

/-- Byte values of a Python `bytes` object. -/
abbrev ByteStr := List Nat

/-- The bytes of a Lean string literal, used to transcribe the byte-string
literals of the source (`b'icmp_seq='`, `b'time='`, `'Unreachable'`). -/
def strBytes (s : String) : ByteStr := s.data.map Char.toNat

/-- A Python value that is either a `str` or a `bytes`: the two runtime
types that meet in `'Unreachable' in line` (ping.py line 166) and in the
type test of `find_starting_item` (ping.py line 206). -/
inductive PyVal where
  | pstr (s : ByteStr)
  | pbytes (b : ByteStr)
deriving DecidableEq

/-- Python 3 `==` across `str` and `bytes`: values of different runtime
types are never equal; values of the same type compare by content. -/
def pyEq : PyVal → PyVal → Bool
  | .pstr a, .pstr b => a == b
  | .pbytes a, .pbytes b => a == b
  | _, _ => false

/-- `find_starting_item(line, search_term)` from ping.py lines 188–209,
specialised to a `bytes` search term as in both of its call sites: items
whose runtime type differs from the search term's are skipped
(`type(item) != type(search_term)`), and the first remaining item that
starts with the search term is returned; `none` models the implicit
`return None` when nothing matches. -/
def find_starting_item (line : List PyVal) (search : ByteStr) : Option ByteStr :=
  match line with
  | [] => none
  | .pstr _ :: rest => find_starting_item rest search
  | .pbytes b :: rest =>
      if search.isPrefixOf b then some b else find_starting_item rest search

/-- ASCII digit test on one byte, as used by `bytes.isdigit` on a
single-byte string. -/
def isDigitByte (c : Nat) : Bool := 48 ≤ c && c ≤ 57

/-- Numeric value of a digit string (helper for `int()` and `float()`). -/
def digitsVal (l : ByteStr) : Nat :=
  l.foldl (fun acc c => acc * 10 + (c - 48)) 0

/-- Python `int()` on an ASCII-digit byte string — the shape of every
`icmp_seq=` suffix this code meets; empty or non-digit input raises
`ValueError`, modelled as `none`. -/
def parseNatDigits (l : ByteStr) : Option Nat :=
  if !l.isEmpty && l.all isDigitByte then some (digitsVal l) else none

/-- Python `float()` on a plain decimal byte string (digit runs with at
most one dot, at least one digit) — the shape of every stripped `time=`
suffix this code meets; other inputs raise `ValueError` (`none`). -/
def parseFloat (l : ByteStr) : Option ℚ :=
  let ip := l.takeWhile (fun c => c ≠ 46)
  match l.dropWhile (fun c => c ≠ 46) with
  | [] => if !l.isEmpty && l.all isDigitByte then some ((digitsVal l : ℚ)) else none
  | _ :: fp =>
      if ip.all isDigitByte && fp.all isDigitByte && (!ip.isEmpty || !fp.isEmpty) then
        some ((digitsVal ip : ℚ) + (digitsVal fp : ℚ) / ((10 : ℚ) ^ fp.length))
      else none

/-- `b'icmp_seq='` (9 bytes; the source slices its match with `[9:]`). -/
def icmpSeqTerm : ByteStr := strBytes "icmp_seq="

/-- `b'time='` (5 bytes; the source slices its match with `[5:]`). -/
def timeTerm : ByteStr := strBytes "time="

/-- The characters of the `str` literal `'Unreachable'`. -/
def unreachableWord : ByteStr := strBytes "Unreachable"

/-- One output line of the ping process after `readline().split()`: a list
of whitespace-delimited `bytes` tokens. -/
abbrev Line := List ByteStr

/-- The tokens of a line as Python runtime values: `split()` on a `bytes`
stream always produces `bytes` tokens. -/
def pyTokens (line : Line) : List PyVal := line.map PyVal.pbytes

/-- `'Unreachable' in line` (ping.py line 166): membership of the `str`
literal in the list of `bytes` tokens, under Python 3 equality. -/
def hasUnreachable (line : Line) : Bool :=
  (pyTokens line).any (fun tok => pyEq (PyVal.pstr unreachableWord) tok)

/-- `bytes.isdigit(time[-1:])`: the last byte viewed as a one-byte string
(`b''` on an empty string, and `bytes.isdigit(b'')` is `False`). -/
def lastIsDigit (t : ByteStr) : Bool :=
  match t.getLast? with
  | some c => isDigitByte c
  | none => false

/-- The unit-stripping loop of ping.py lines 171–172
(`while not bytes.isdigit(time[-1:]): time = time[:-1]`), indexed by fuel;
`none` means the fuel ran out before the loop finished.  Because
`bytes.isdigit(b'')` is `False`, the loop keeps iterating on the empty
string, so a digit-free input never finishes under any fuel. -/
def stripLoop : Nat → ByteStr → Option ByteStr
  | 0, _ => none
  | n + 1, t => if lastIsDigit t then some t else stripLoop n t.dropLast

/-- The distinct failure exits of the parsing section of `Ping.ping`
(ping.py lines 165–173); each is a `TypeError` or `ValueError` raised on
a line the spec calls malformed. -/
inductive ParseErr where
  | noSeqToken -- no icmp_seq= token, so None[9:] raises TypeError
  | badSeq -- int() on the icmp_seq= suffix raises ValueError
  | noTimeToken -- no time= token, so None[5:] raises TypeError
  | badTime -- float() on the stripped time= suffix raises ValueError
deriving DecidableEq

/-- One parsed sample: `(icmp_seq, round-trip time or none)`. -/
abbrev Sample := Nat × Option ℚ

/-- ping.py lines 165–174: parse one tokenized output line into a sample.
Result `none` means the call never returns (the stripping loop diverges);
`some (.error e)` is a raised exception; `some (.ok s)` is the yielded
sample.  The fuel `t.length + 1` handed to `stripLoop` is exact: the loop
strips one byte per iteration, so it either finishes within that budget or
never finishes at all (proved below). -/
def parseLine (line : Line) : Option (Except ParseErr Sample) :=
  match find_starting_item (pyTokens line) icmpSeqTerm with
  | none => some (.error .noSeqToken)
  | some seqTok =>
    match parseNatDigits (seqTok.drop 9) with
    | none => some (.error .badSeq)
    | some seq =>
      if hasUnreachable line then some (.ok (seq, none))
      else
        match find_starting_item (pyTokens line) timeTerm with
        | none => some (.error .noTimeToken)
        | some timeTok =>
          match stripLoop ((timeTok.drop 5).length + 1) (timeTok.drop 5) with
          | none => none
          | some stripped =>
            match parseFloat stripped with
            | none => some (.error .badTime)
            | some q => some (.ok (seq, some q))

/-! ## The generator `Ping.ping` as a state machine

`Ping.ping(packets, latest)` (ping.py lines 139–175) is a generator.  We
model its state after startup (process spawned, banner line already
discarded, ping.py lines 152–153) as the remaining loop state: the fixed
`packets` and `latest` arguments, the number of samples yielded so far
(the position of the `range(packets)` / `itertools.count()` counter), and
the complete lines currently buffered in the process's stdout pipe.
`readline()` on an empty buffer blocks until the process produces more
output; a call that cannot complete from the buffered lines alone is
modelled as `none`. -/

/-- Errors a `next()` call on the generator can raise: `StopIteration`
once a bounded count is exhausted (the code's `raise StopIteration()` /
generator return, which the spec names `StreamClosed`), or a parse
exception (`MalformedLine` in the spec). -/
inductive StreamErr where
  | streamClosed
  | malformed (e : ParseErr)
deriving DecidableEq

/-- Generator state of one `Ping.ping(packets, latest)` call, after the
banner line has been discarded. -/
structure PingGen where
  packets : Option Nat
  latest : Bool
  produced : Nat
  buf : List Line
deriving DecidableEq

/-- The latest-only skip loop (ping.py lines 160–162): after reading
`line`, while the peeked buffer holds more than one newline byte — that
is, while at least two complete lines remain buffered — discard `line`
and read the next one. -/
def drainLatest (line : Line) (buf : List Line) : Line × List Line :=
  match buf with
  | b1 :: b2 :: rest => drainLatest b1 (b2 :: rest)
  | _ => (line, buf)

/-- The read-and-parse body of one loop iteration of `Ping.ping`
(ping.py lines 159–174): the latest-only drain applies only when
`packets is None and latest` (line 159); then the chosen line is parsed
and yielded. -/
def PingGen.nextRead (g : PingGen) : Option (Except StreamErr (Sample × PingGen)) :=
  match g.buf with
  | [] => none
  | l :: rest =>
      match (if g.packets.isNone && g.latest then drainLatest l rest else (l, rest)) with
      | (line2, buf2) =>
          match parseLine line2 with
          | none => none
          | some (.error e) => some (.error (.malformed e))
          | some (.ok s) =>
              some (.ok (s, { g with produced := g.produced + 1, buf := buf2 }))

/-- One `next()` call on the generator (one iteration of the loop at
ping.py lines 158–174, with the `range(packets)` counter exhausting into
`StopIteration` in bounded mode).  `none` models a call that never
returns: a blocking `readline()` on an exhausted buffer, or divergence of
the unit-stripping loop inside parsing. -/
def PingGen.next (g : PingGen) : Option (Except StreamErr (Sample × PingGen)) :=
  match g.packets with
  | some k =>
      if k ≤ g.produced then some (.error .streamClosed)
      else g.nextRead
  | none => g.nextRead

/-- The sample returned by one successful `next()` call, if any. -/
def PingGen.nextSample (g : PingGen) : Option Sample :=
  match g.next with
  | some (.ok (s, _)) => some s
  | _ => none

/-- Apply `next()` a number of times, keeping only runs in which every
call succeeds with a sample. -/
def PingGen.stepN (g : PingGen) : Nat → Option PingGen
  | 0 => some g
  | n + 1 =>
      match g.next with
      | some (.ok (_, g2)) => g2.stepN n
      | _ => none

/-! ## The external process and `Ping.stop` -/

/-- State of the external ping process owned by one `Ping` object:
`noProcess` models a `Ping` whose generator was never pulled (no
`ping_command` attribute, ping.py line 152 not yet executed). -/
inductive ProcState where
  | noProcess
  | running
  | killed
deriving DecidableEq

/-- Python exceptions surfacing in `Ping.stop` (ping.py lines 179–182). -/
inductive PyExc where
  | attributeError
deriving DecidableEq

/-- `self.ping_command.kill()`: on a `Ping` that never started a process,
accessing `ping_command` raises `AttributeError`; killing a live or
already-killed (zombie) process succeeds. -/
def procKill : ProcState → Except PyExc ProcState
  | .noProcess => .error .attributeError
  | .running => .ok .killed
  | .killed => .ok .killed

/-- `Ping.stop` (ping.py lines 177–182): `try: kill() except
AttributeError: pass`. -/
def pingStop (p : ProcState) : Except PyExc ProcState :=
  match procKill p with
  | .error .attributeError => .ok p
  | r => r

/-- The state `Ping.stop` always reaches (it never raises — see
`c8_stop_idempotent_no_fail`). -/
def stopTotal : ProcState → ProcState
  | .noProcess => .noProcess
  | _ => .killed

/-! ## The `PingTest` ledger (pingtest.py)

State of one `PingTest` object.  The `Ping` objects in `self.__pings` own
external processes; we keep those processes in a table `procs` indexed by
handles, so that a process's state remains observable after its owning
entry is evicted from the ledger (the OS process outlives the Python
list entry). -/

structure PT where
  addresses : List String
  times : List PingGen
  pings : List Nat
  responses : List (List (Option ℚ))
  procs : List ProcState
deriving DecidableEq

/-- A selector argument as passed to `get` / `_do_stat` / `remove`:
`None`, an `int`, or an address `str`.  (Negative Python indices are not
modelled; every claim concerns valid non-negative indices.) -/
inductive Address where
  | anone
  | aint (i : Nat)
  | astr (s : String)
deriving DecidableEq

/-- The dynamic value held by the local variable `address` in `get` after
`address = self.__get_address_index(address)`: `None`, an `int` index, or
a `float` response time that the buggy string branch of
`__get_address_index` returns. -/
inductive Dyn where
  | dnone
  | dint (i : Nat)
  | dfloat (q : ℚ)
deriving DecidableEq

/-- `isinstance(address, int)` on the dynamic selector value. -/
def Dyn.isInt : Dyn → Bool
  | .dint _ => true
  | _ => false

/-- The response value of one stream pull as the dynamic value it has in
Python: `None` or a `float`. -/
def dynOfResp : Option ℚ → Dyn
  | none => .dnone
  | some q => .dfloat q

/-- Errors surfacing from `PingTest` operations; each names the Python
exception (and the spec's name for it where one exists). -/
inductive Err where
  | indexError -- IndexError: list index out of range (spec: IndexOutOfRange)
  | valueError -- ValueError from list.index (spec: UnknownAddress)
  | typeError -- TypeError, e.g. list.pop on a float
  | streamClosed -- StopIteration from the generator (spec: StreamClosed)
  | malformed (e : ParseErr) -- parse failure (spec: MalformedLine)
  | insufficientData -- min and max on empty, StatisticsError (spec: InsufficientData)
deriving DecidableEq

/-- Lift a generator error into a ledger error. -/
def Err.ofStream : StreamErr → Err
  | .streamClosed => .streamClosed
  | .malformed e => .malformed e

/-- `self.addresses.index(address)` (pingtest.py line 60): index of the
first equal element, `ValueError` (`none`) when absent. -/
def indexOfStr : List String → String → Option Nat
  | [], _ => none
  | a :: rest, s => if a = s then some 0 else (indexOfStr rest s).map (· + 1)

/-- The integer branch of `PingTest.get` (pingtest.py lines 73–76):
`response = self.__times[address].__next__()[1]`, then
`self.responses[address].append(response)`, then return the response.
The mutated state is returned alongside the result even when an exception
is raised, as in Python; `none` models a call that never returns. -/
def getIdx (st : PT) (i : Nat) : Option (Except Err (Option ℚ) × PT) :=
  if h : i < st.times.length then
    match (st.times.get ⟨i, h⟩).next with
    | none => none
    | some (.error e) => some (.error (Err.ofStream e), st)
    | some (.ok (s, g2)) =>
        if i < st.responses.length then
          some (.ok s.2,
            { st with times := st.times.set i g2,
                      responses := st.responses.set i (st.responses.getD i [] ++ [s.2]) })
        else some (.error .indexError, { st with times := st.times.set i g2 })
  else some (.error .indexError, st)

/-- The all-addresses loop of `PingTest.get` (pingtest.py lines 77–80):
`for index in range(len(self.__times)): answer.append(self.get(index))`.
An exception part-way through keeps the mutations already made. -/
def getAllAux (st : PT) : List Nat → Option (Except Err (List (Option ℚ)) × PT)
  | [] => some (.ok [], st)
  | i :: rest =>
      match getIdx st i with
      | none => none
      | some (.error e, st1) => some (.error e, st1)
      | some (.ok t, st1) =>
          match getAllAux st1 rest with
          | none => none
          | some (.error e, st2) => some (.error e, st2)
          | some (.ok ts, st2) => some (.ok (t :: ts), st2)

/-- The result of `PingTest.get`: a single response time (int selector)
or the list of all response times (all-addresses branch). -/
inductive GetResult where
  | single (t : Option ℚ)
  | all (ts : List (Option ℚ))
deriving DecidableEq

/-- `PingTest.get` (pingtest.py lines 62–80) together with
`__get_address_index` (lines 51–60).  For a string selector,
`__get_address_index` executes `return self.get(self.addresses.index(address))`
— advancing that entry's stream and appending to its history — and hands
the resulting response time back as the new value of `address`; since a
`float` (or `None`) is not an `int`, control then falls into the
all-addresses branch. -/
def getFull (st : PT) (sel : Address) : Option (Except Err GetResult × PT) :=
  match sel with
  | .aint i =>
      match getIdx st i with
      | none => none
      | some (.error e, st1) => some (.error e, st1)
      | some (.ok t, st1) => some (.ok (.single t), st1)
  | .anone =>
      match getAllAux st (List.range st.times.length) with
      | none => none
      | some (.error e, st1) => some (.error e, st1)
      | some (.ok ts, st1) => some (.ok (.all ts), st1)
  | .astr s =>
      match indexOfStr st.addresses s with
      | none => some (.error .valueError, st)
      | some i =>
          match getIdx st i with
          | none => none
          | some (.error e, st1) => some (.error e, st1)
          | some (.ok t, st1) =>
              match dynOfResp t with
              | .dint j =>
                  -- isinstance(address, int): unreachable, responses are floats
                  match getIdx st1 j with
                  | none => none
                  | some (.error e, st2) => some (.error e, st2)
                  | some (.ok t2, st2) => some (.ok (.single t2), st2)
              | _ =>
                  match getAllAux st1 (List.range st1.times.length) with
                  | none => none
                  | some (.error e, st2) => some (.error e, st2)
                  | some (.ok ts, st2) => some (.ok (.all ts), st2)

/-- `PingTest.stop` (pingtest.py lines 121–124): stop every ping. -/
def stopAllPT (st : PT) : PT :=
  { st with procs := st.pings.foldl (fun ps h => ps.set h (stopTotal (ps.getD h .noProcess))) st.procs }

/-- `PingTest.remove` (pingtest.py lines 126–137).  The pops run in
source order — `addresses`, `__times`, then `__pings[index].stop()`,
`__pings`, `responses` — each raising `IndexError` (with the earlier
mutations kept) if the index is out of range for that list.  For a string
selector, `__get_address_index` returns the float response of `get`, and
`self.addresses.pop(float)` raises `TypeError`; `remove(None)` likewise
raises `TypeError` from `list.pop(None)`. -/
def removeAt (st : PT) (i : Nat) : Except Err Unit × PT :=
  if _h1 : i < st.addresses.length then
    if _h2 : i < st.times.length then
      if h3 : i < st.pings.length then
        if _h4 : i < st.responses.length then
          (.ok (),
            { addresses := st.addresses.eraseIdx i
              times := st.times.eraseIdx i
              pings := st.pings.eraseIdx i
              responses := st.responses.eraseIdx i
              procs := st.procs.set (st.pings.get ⟨i, h3⟩)
                (stopTotal (st.procs.getD (st.pings.get ⟨i, h3⟩) .noProcess)) })
        else
          (.error .indexError,
            { addresses := st.addresses.eraseIdx i
              times := st.times.eraseIdx i
              pings := st.pings.eraseIdx i
              responses := st.responses
              procs := st.procs.set (st.pings.get ⟨i, h3⟩)
                (stopTotal (st.procs.getD (st.pings.get ⟨i, h3⟩) .noProcess)) })
      else
        (.error .indexError,
          { st with addresses := st.addresses.eraseIdx i, times := st.times.eraseIdx i })
    else (.error .indexError, { st with addresses := st.addresses.eraseIdx i })
  else (.error .indexError, st)

def removeFull (st : PT) (sel : Address) : Option (Except Err Unit × PT) :=
  match sel with
  | .aint i => some (removeAt st i)
  | .anone => some (.error .typeError, st)
  | .astr s =>
      match indexOfStr st.addresses s with
      | none => some (.error .valueError, st)
      | some i =>
          match getIdx st i with
          | none => none
          | some (.error e, st1) => some (.error e, st1)
          | some (.ok t, st1) =>
              match dynOfResp t with
              | .dint j =>
                  -- isinstance(index, int): unreachable, responses are floats
                  some (removeAt st1 j)
              | _ => some (.error .typeError, st1)

/-! ## Statistics (pingtest.py lines 82–119) -/

/-- Extract the float values of a history list; a `None` among floats
would raise `TypeError` inside `min`, `max` or `statistics.mean`. -/
def pyExtract : List (Option ℚ) → Except Err (List ℚ)
  | [] => .ok []
  | some q :: rest => (pyExtract rest).map (q :: ·)
  | none :: _ => .error .typeError

/-- Python `min` over a history: `ValueError` on the empty list, which
the spec names `InsufficientData`. -/
def pyMin (l : List (Option ℚ)) : Except Err ℚ :=
  match pyExtract l with
  | .error e => .error e
  | .ok [] => .error .insufficientData
  | .ok (q :: qs) => .ok (qs.foldl min q)

/-- Python `max` over a history: `ValueError` on the empty list. -/
def pyMax (l : List (Option ℚ)) : Except Err ℚ :=
  match pyExtract l with
  | .error e => .error e
  | .ok [] => .error .insufficientData
  | .ok (q :: qs) => .ok (qs.foldl max q)

/-- `statistics.mean` over a history: sum divided by length,
`StatisticsError` on the empty list. -/
def pyMean (l : List (Option ℚ)) : Except Err ℚ :=
  match pyExtract l with
  | .error e => .error e
  | .ok [] => .error .insufficientData
  | .ok (q :: qs) => .ok ((q :: qs).sum / ((q :: qs).length : ℚ))

/-- The integer branch of `PingTest._do_stat` (pingtest.py lines 89–91):
`return stat(self.responses[address])`. -/
def doStatIdx (st : PT) (stat : List (Option ℚ) → Except Err ℚ) (i : Nat) : Except Err ℚ :=
  if h : i < st.responses.length then stat (st.responses.get ⟨i, h⟩)
  else .error .indexError

/-- `PingTest.fastest` on an integer selector (pingtest.py line 103). -/
def fastestIdx (st : PT) (i : Nat) : Except Err ℚ := doStatIdx st pyMin i

/-- `PingTest.slowest` on an integer selector (pingtest.py line 111). -/
def slowestIdx (st : PT) (i : Nat) : Except Err ℚ := doStatIdx st pyMax i

/-- `PingTest.mean` on an integer selector (pingtest.py line 119). -/
def meanIdx (st : PT) (i : Nat) : Except Err ℚ := doStatIdx st pyMean i

/-! ## Operation sequences over a ledger -/

/-- One ledger operation (the mutating public operations of `PingTest`;
the statistics calls on integer selectors read no state they change). -/
inductive Op where
  | get (sel : Address)
  | remove (sel : Address)
  | stopAll

/-- Apply one operation, keeping the (possibly partially mutated) state
whether or not the operation raised; `none` models a call that never
returns. -/
def applyOp (st : PT) : Op → Option PT
  | .get sel => (getFull st sel).map (·.2)
  | .remove sel => (removeFull st sel).map (·.2)
  | .stopAll => some (stopAllPT st)

/-- Run a sequence of operations. -/
def runOps (st : PT) : List Op → Option PT
  | [] => some st
  | op :: rest =>
      match applyOp st op with
      | none => none
      | some st2 => runOps st2 rest

/-- No history list of the ledger contains a `None` round-trip time. -/
def NoneFree (st : PT) : Prop :=
  ∀ h ∈ st.responses, ∀ x ∈ h, x ≠ none

/-- The `PingTest` constructor (pingtest.py lines 34–49): one fresh
unbounded generator per address with the shared latest flag, an empty
history per address, and one not-yet-spawned process per address.  The
buffered output each process will offer (after its banner line) is a
parameter of the model. -/
def mkPT (addrs : List String) (latest : Bool) (bufs : List (List Line)) : PT :=
  { addresses := addrs
    times := (List.range addrs.length).map
      (fun i => { packets := none, latest := latest, produced := 0, buf := bufs.getD i [] })
    pings := List.range addrs.length
    responses := addrs.map (fun _ => [])
    procs := addrs.map (fun _ => ProcState.noProcess) }

/-! ## General lemmas about the embedding -/

/-- The `Unreachable` test is dead code: `split()` on a byte stream only
produces `bytes` tokens, and the `str` literal never equals a `bytes`
token under Python 3 equality. -/
theorem hasUnreachable_eq_false (line : Line) : hasUnreachable line = false := by
  simp [hasUnreachable, pyTokens, List.any_map, Function.comp, pyEq]

/-- Every sample `Ping.ping` actually yields carries a `float` round-trip
time: the only branch producing a `None` time is guarded by the dead
`Unreachable` test. -/
theorem parseLine_ok_time_isSome {line : Line} {s : Sample}
    (h : parseLine line = some (.ok s)) : s.2.isSome := by
  unfold parseLine at h
  rw [hasUnreachable_eq_false] at h
  repeat' split at h
  all_goals try simp_all
  all_goals exact h ▸ rfl

/-- Lifting `parseLine_ok_time_isSome` to a generator call. -/
theorem PingGen.next_ok_time_isSome {g g2 : PingGen} {s : Sample}
    (h : g.next = some (.ok (s, g2))) : s.2.isSome := by
  unfold PingGen.next PingGen.nextRead at h
  repeat' split at h
  all_goals try cases h
  all_goals
    rename_i hp
    exact parseLine_ok_time_isSome hp

/-- A fuel-starved run of the stripping loop on a digit-free string: the
loop never finds a digit to stop at (the empty string included, since
`bytes.isdigit` of the empty string is `False`). -/
theorem stripLoop_eq_none_of_no_digit {t : ByteStr}
    (hd : ∀ c ∈ t, isDigitByte c = false) : ∀ n, stripLoop n t = none := by
  intro n
  induction n generalizing t with
  | zero => rfl
  | succ n ih =>
      have hlast : lastIsDigit t = false := by
        unfold lastIsDigit
        split
        · next c hc => exact hd c (List.mem_of_getLast?_eq_some hc)
        · rfl
      simp only [stripLoop, hlast, Bool.false_eq_true, if_false]
      exact ih fun c hc => hd c (List.dropLast_sublist t |>.mem hc)

/-- If the string holds a digit anywhere, the stripping loop finishes,
and fuel `length + 1` is enough: each iteration shortens the string. -/
theorem stripLoop_terminates_of_digit (t : ByteStr)
    (hd : ∃ c ∈ t, isDigitByte c) :
    ∃ r, stripLoop (t.length + 1) t = some r := by
  induction t using List.reverseRecOn with
  | nil => obtain ⟨c, hc, -⟩ := hd; cases hc
  | append_singleton ys y ih =>
      by_cases hy : isDigitByte y = true
      · refine ⟨ys ++ [y], ?_⟩
        have hlast : lastIsDigit (ys ++ [y]) = true := by
          simp [lastIsDigit, List.getLast?_concat, hy]
        simp [stripLoop, hlast]
      · obtain ⟨c, hc, hdig⟩ := hd
        have hcys : c ∈ ys := by
          rcases List.mem_append.mp hc with h | h
          · exact h
          · rw [List.mem_singleton.mp h] at hdig
            exact absurd hdig hy
        have hlast : lastIsDigit (ys ++ [y]) = false := by
          simp [lastIsDigit, List.getLast?_concat]
          simpa using hy
        obtain ⟨r, hr⟩ := ih ⟨c, hcys, hdig⟩
        refine ⟨r, ?_⟩
        have hdl : (ys ++ [y]).dropLast = ys := List.dropLast_concat ..
        have hlen : (ys ++ [y]).length = ys.length + 1 := by simp
        simp only [stripLoop, hlast, Bool.false_eq_true, if_false, hdl, hlen]
        exact hr

/-- The latest-only drain over a buffer that ends with two known lines:
it returns the second-to-last line and leaves exactly the last one. -/
theorem drainLatest_last_two :
    ∀ (mid : List Line) (l y z : Line), drainLatest l (mid ++ [y, z]) = (y, [z]) := by
  intro mid
  induction mid with
  | nil => intro l y z; rfl
  | cons m ms ih =>
      intro l y z
      have : drainLatest l ((m :: ms) ++ [y, z]) = drainLatest m (ms ++ [y, z]) := by
        cases ms <;> rfl
      rw [this, ih]

/-! ## C1 — latest-only mode -/

/-- A well-formed reply line with sequence number and whole-millisecond
time given as decimal strings. -/
def mkLine (seq time : String) : Line :=
  [strBytes "64", strBytes "bytes", strBytes "from", strBytes "h:",
   strBytes ("icmp_seq=" ++ seq), strBytes "ttl=57",
   strBytes ("time=" ++ time), strBytes "ms"]

def pingLine1 : Line := mkLine "1" "10"
def pingLine2 : Line := mkLine "2" "20"
def pingLine3 : Line := mkLine "3" "30"

/-- C1, counterexample: an unbounded latest-only stream whose source has
buffered three complete lines before the call.  The claim says `next()`
returns the sample of the most recently buffered line (`pingLine3`,
sample `(3, 30)`); the code reads until exactly one complete line remains
buffered and returns the *second*-most-recent line's sample `(2, 20)`. -/
theorem c1_latest_mode_counterexample :
    parseLine pingLine3 = some (.ok (3, some (30 : ℚ))) ∧
    (PingGen.mk none true 0 [pingLine1, pingLine2, pingLine3]).nextSample =
      some (2, some (20 : ℚ)) ∧
    ((2, some (20 : ℚ)) : Sample) ≠ (3, some (30 : ℚ)) := by
  decide

/-- C1, amended: in unbounded latest-only mode, with at least two
complete lines buffered, `next()` discards every buffered line before the
second-most-recent one, returns the sample parsed from the
second-most-recent line, and leaves exactly the most recently buffered
line in the buffer (so every line before the returned one is gone from
the stream and can never be returned by a future call). -/
theorem c1_latest_mode_second_most_recent (front : List Line) (y z : Line)
    (s : Sample) (produced : Nat) (hy : parseLine y = some (.ok s)) :
    (PingGen.mk none true produced (front ++ [y, z])).next =
      some (.ok (s, PingGen.mk none true (produced + 1) [z])) := by
  cases front with
  | nil =>
      simp [PingGen.next, PingGen.nextRead, drainLatest, hy]
  | cons f fs =>
      have hd : drainLatest f (fs ++ [y, z]) = (y, [z]) := drainLatest_last_two fs f y z
      simp [PingGen.next, PingGen.nextRead, hd, hy]

/-- Witness for C1 (amended): three buffered lines, concrete samples. -/
theorem c1_latest_mode_second_most_recent_witness :
    (PingGen.mk none true 0 [pingLine1, pingLine2, pingLine3]).next =
      some (.ok ((2, some (20 : ℚ)), PingGen.mk none true 1 [pingLine3])) :=
  c1_latest_mode_second_most_recent [pingLine1] pingLine2 pingLine3
    (2, some (20 : ℚ)) 0 (by decide)

/-! ## C2 — Unreachable lines -/

/-- An output line reporting an unreachable destination, as the external
utility prints it (no `time=` token). -/
def unreachableLine : Line :=
  [strBytes "From", strBytes "192.168.1.1", strBytes "icmp_seq=1",
   strBytes "Destination", strBytes "Host", strBytes "Unreachable"]

/-- C2, code bug: the line carries `icmp_seq=1` and the literal token
`Unreachable`, so the claim demands the sample `(1, none)`; but
`'Unreachable' in line` compares a `str` against `bytes` tokens and is
always false in Python 3, so the code falls into the `time=` branch and
raises a `TypeError` (`find_starting_item` returned `None`) instead of
yielding any sample. -/
theorem c2_unreachable_line_raises :
    strBytes "Unreachable" ∈ unreachableLine ∧
    find_starting_item (pyTokens unreachableLine) icmpSeqTerm =
      some (strBytes "icmp_seq=1") ∧
    parseLine unreachableLine = some (.error .noTimeToken) ∧
    parseLine unreachableLine ≠ some (.ok (1, none)) := by
  decide

/-! ## C6 — MalformedLine conditions -/

/-- A second unreachable-destination line (net unreachable). -/
def unreachableLine6 : Line :=
  [strBytes "From", strBytes "10.0.0.1", strBytes "icmp_seq=7",
   strBytes "Destination", strBytes "Net", strBytes "Unreachable"]

/-- C6, code bug: the claim says `next()` fails with `MalformedLine`
*exactly* when the line lacks an `icmp_seq=` token, or — for a line
without the `Unreachable` token — lacks a parseable `time=` token.  This
line has an `icmp_seq=` token and the `Unreachable` token, so by the
claim it must not fail; the code still raises, because the dead
`str`-versus-`bytes` membership test sends it down the `time=` branch. -/
theorem c6_malformed_exactly_when_counterexample :
    strBytes "Unreachable" ∈ unreachableLine6 ∧
    find_starting_item (pyTokens unreachableLine6) icmpSeqTerm =
      some (strBytes "icmp_seq=7") ∧
    parseNatDigits ((strBytes "icmp_seq=7").drop 9) = some 7 ∧
    parseLine unreachableLine6 = some (.error .noTimeToken) := by
  decide

/-! ## C8 — stop is idempotent and never fails -/

/-- C8: `Ping.stop` never raises (the `AttributeError` of a never-started
stream is swallowed), never leaves the process running, and a second
`stop()` is a no-op that also succeeds. -/
theorem c8_stop_idempotent_no_fail (p : ProcState) :
    pingStop p = .ok (stopTotal p) ∧
    stopTotal p ≠ .running ∧
    pingStop (stopTotal p) = .ok (stopTotal p) := by
  cases p <;> decide

/-! ## C10 — termination of the unit-stripping loop -/

/-- C10: the stripping loop applied to a `time=` suffix terminates under
some fuel exactly when the suffix holds at least one ASCII digit byte;
and on a line whose `time=` token carries a digit-free suffix, the
parsing of the line — and hence the `next()` call that reached it on an
unbounded stream — never returns. -/
theorem c10_strip_loop_termination :
    (∀ t : ByteStr, (∃ n r, stripLoop n t = some r) ↔ ∃ c ∈ t, isDigitByte c) ∧
    (∀ (line : Line) (seqTok timeTok : ByteStr),
      find_starting_item (pyTokens line) icmpSeqTerm = some seqTok →
      (parseNatDigits (seqTok.drop 9)).isSome →
      find_starting_item (pyTokens line) timeTerm = some timeTok →
      (∀ c ∈ timeTok.drop 5, isDigitByte c = false) →
      parseLine line = none ∧
      ∀ rest : List Line,
        (PingGen.mk none false 0 (line :: rest)).next = none) := by
  constructor
  · intro t
    constructor
    · rintro ⟨n, r, hr⟩
      by_contra hno
      push_neg at hno
      have : ∀ c ∈ t, isDigitByte c = false := by
        intro c hc
        simpa using hno c hc
      rw [stripLoop_eq_none_of_no_digit this n] at hr
      cases hr
    · intro hd
      obtain ⟨r, hr⟩ := stripLoop_terminates_of_digit t hd
      exact ⟨t.length + 1, r, hr⟩
  · intro line seqTok timeTok hseq hnat htime hfree
    obtain ⟨sq, hsq⟩ := Option.isSome_iff_exists.mp hnat
    have hstrip : stripLoop (timeTok.length - 5 + 1) (timeTok.drop 5) = none :=
      stripLoop_eq_none_of_no_digit hfree _
    have hparse : parseLine line = none := by
      simp [parseLine, hseq, hsq, hasUnreachable_eq_false, htime, hstrip]
    refine ⟨hparse, fun rest => ?_⟩
    simp [PingGen.next, PingGen.nextRead, hparse]

/-- Witness for C10: the suffix of `time=ms` has no digit, and a full
line carrying it makes `next()` hang. -/
def hangLine : Line :=
  [strBytes "64", strBytes "bytes", strBytes "icmp_seq=4", strBytes "time=ms"]

theorem c10_strip_loop_termination_witness :
    parseLine hangLine = none ∧
    (PingGen.mk none false 0 [hangLine]).next = none :=
  have h := c10_strip_loop_termination.2 hangLine (strBytes "icmp_seq=4")
    (strBytes "time=ms") (by decide) (by decide) (by decide) (by decide)
  ⟨h.1, h.2 []⟩

/-! ## C5 — bounded mode -/

/-- Invariant run of a bounded generator: while lines remain and the
counter is not exhausted, every call succeeds, consumes exactly one
buffered line and bumps the yield count by one. -/
theorem boundedStepN (K : Nat) (latest : Bool) :
    ∀ (i : Nat) (ls : List Line) (p : Nat), p + ls.length = K →
      (∀ l ∈ ls, ∃ s : Sample, parseLine l = some (.ok s)) →
      i ≤ ls.length →
      PingGen.stepN ⟨some K, latest, p, ls⟩ i =
        some ⟨some K, latest, p + i, ls.drop i⟩ := by
  intro i
  induction i with
  | zero => intro ls p hK hok hi; simp [PingGen.stepN]
  | succ i ih =>
      intro ls p hK hok hi
      match ls, hi with
      | l :: rest, hi =>
        obtain ⟨s, hs⟩ := hok l (List.mem_cons_self l rest)
        have hp : p < K := by
          simp only [List.length_cons] at hK; omega
        have hnext : (PingGen.mk (some K) latest p (l :: rest)).next =
            some (.ok (s, ⟨some K, latest, p + 1, rest⟩)) := by
          simp [PingGen.next, PingGen.nextRead, Nat.not_le.mpr hp, hs]
        simp only [PingGen.stepN, hnext]
        have hK2 : p + 1 + rest.length = K := by
          simp only [List.length_cons] at hK; omega
        rw [ih rest (p + 1) hK2
          (fun l2 h2 => hok l2 (List.mem_cons_of_mem _ h2))
          (Nat.le_of_succ_le_succ hi)]
        have : p + 1 + i = p + (i + 1) := by omega
        rw [this]
        rfl

/-- C5: a stream in bounded mode with packet count `K` and `K`
well-formed reply lines available: each of the first `K` calls succeeds
and consumes exactly one line (whatever the latest-only flag), and the
call after the `K`-th fails with `StopIteration` (`StreamClosed`). -/
theorem c5_bounded_exact_count (K : Nat) (latest : Bool) (ls : List Line)
    (hlen : ls.length = K)
    (hok : ∀ l ∈ ls, ∃ s : Sample, parseLine l = some (.ok s)) :
    (∀ i ≤ K, PingGen.stepN ⟨some K, latest, 0, ls⟩ i =
        some ⟨some K, latest, i, ls.drop i⟩) ∧
    PingGen.stepN ⟨some K, latest, 0, ls⟩ K = some ⟨some K, latest, K, []⟩ ∧
    (PingGen.mk (some K) latest K []).next = some (.error .streamClosed) := by
  have hstep : ∀ i ≤ K, PingGen.stepN ⟨some K, latest, 0, ls⟩ i =
      some ⟨some K, latest, i, ls.drop i⟩ := by
    intro i hi
    have := boundedStepN K latest i ls 0 (by omega) hok (by omega)
    simpa using this
  refine ⟨hstep, ?_, ?_⟩
  · have h2 := hstep K le_rfl
    rwa [List.drop_eq_nil_of_le (le_of_eq hlen)] at h2
  · simp [PingGen.next]

/-- Witness for C5: a two-packet stream; two calls succeed, the third
raises `StreamClosed`. -/
theorem c5_bounded_exact_count_witness :
    PingGen.stepN ⟨some 2, false, 0, [pingLine1, pingLine2]⟩ 2 =
      some ⟨some 2, false, 2, []⟩ ∧
    (PingGen.mk (some 2) false 2 []).next = some (.error .streamClosed) :=
  have h := c5_bounded_exact_count 2 false [pingLine1, pingLine2] rfl
    (by
      intro l hl
      rcases List.mem_cons.mp hl with rfl | hl2
      · exact ⟨(1, some 10), by decide⟩
      · rcases List.mem_cons.mp hl2 with rfl | hl3
        · exact ⟨(2, some 20), by decide⟩
        · cases hl3)
  ⟨h.2.1, h.2.2⟩

/-! ## C9 — statistics -/

/-- Extraction succeeds on an all-`float` history. -/
theorem pyExtract_map_some (qs : List ℚ) : pyExtract (qs.map some) = .ok qs := by
  induction qs with
  | nil => rfl
  | cons q rest ih => simp [pyExtract, ih, Except.map]

/-- A left fold of `min` lands on one of the folded values. -/
theorem foldl_min_mem (qs : List ℚ) : ∀ q, qs.foldl min q ∈ q :: qs := by
  induction qs with
  | nil => intro q; simp
  | cons a as ih =>
      intro q
      have h := ih (min q a)
      rw [List.foldl_cons]
      rcases List.mem_cons.mp h with h1 | h1
      · rcases min_choice q a with hm | hm <;> rw [h1, hm] <;> simp
      · simp [List.mem_cons.mpr (Or.inr h1), List.mem_cons]

/-- A left fold of `min` bounds every folded value from below. -/
theorem foldl_min_le (qs : List ℚ) : ∀ q, ∀ x ∈ q :: qs, qs.foldl min q ≤ x := by
  induction qs with
  | nil =>
      intro q x hx
      rw [List.mem_singleton.mp hx]
      exact le_rfl
  | cons a as ih =>
      intro q x hx
      rw [List.foldl_cons]
      rcases List.mem_cons.mp hx with rfl | hx2
      · exact le_trans (ih (min x a) (min x a) (List.mem_cons_self ..)) (min_le_left ..)
      · rcases List.mem_cons.mp hx2 with rfl | hx3
        · exact le_trans (ih (min q x) (min q x) (List.mem_cons_self ..)) (min_le_right ..)
        · exact ih (min q a) x (List.mem_cons_of_mem _ hx3)

/-- A left fold of `max` lands on one of the folded values. -/
theorem foldl_max_mem (qs : List ℚ) : ∀ q, qs.foldl max q ∈ q :: qs := by
  induction qs with
  | nil => intro q; simp
  | cons a as ih =>
      intro q
      have h := ih (max q a)
      rw [List.foldl_cons]
      rcases List.mem_cons.mp h with h1 | h1
      · rcases max_choice q a with hm | hm <;> rw [h1, hm] <;> simp
      · simp [List.mem_cons.mpr (Or.inr h1), List.mem_cons]

/-- A left fold of `max` bounds every folded value from above. -/
theorem foldl_max_ge (qs : List ℚ) : ∀ q, ∀ x ∈ q :: qs, x ≤ qs.foldl max q := by
  induction qs with
  | nil =>
      intro q x hx
      rw [List.mem_singleton.mp hx]
      exact le_rfl
  | cons a as ih =>
      intro q x hx
      rw [List.foldl_cons]
      rcases List.mem_cons.mp hx with rfl | hx2
      · exact le_trans (le_max_left ..) (ih (max x a) (max x a) (List.mem_cons_self ..))
      · rcases List.mem_cons.mp hx2 with rfl | hx3
        · exact le_trans (le_max_right ..) (ih (max q x) (max q x) (List.mem_cons_self ..))
        · exact ih (max q a) x (List.mem_cons_of_mem _ hx3)

/-- `min` over a nonempty all-`float` history. -/
theorem pyMin_map_some (q : ℚ) (qs : List ℚ) :
    pyMin (some q :: qs.map some) = .ok (qs.foldl min q) := by
  show pyMin ((q :: qs).map some) = _
  unfold pyMin
  rw [pyExtract_map_some]

/-- `max` over a nonempty all-`float` history. -/
theorem pyMax_map_some (q : ℚ) (qs : List ℚ) :
    pyMax (some q :: qs.map some) = .ok (qs.foldl max q) := by
  show pyMax ((q :: qs).map some) = _
  unfold pyMax
  rw [pyExtract_map_some]

/-- `statistics.mean` over a nonempty all-`float` history. -/
theorem pyMean_map_some (q : ℚ) (qs : List ℚ) :
    pyMean (some q :: qs.map some) = .ok ((q :: qs).sum / ((q :: qs).length : ℚ)) := by
  show pyMean ((q :: qs).map some) = _
  unfold pyMean
  rw [pyExtract_map_some]

/-- C9: on an entry whose recorded history holds the responsive times
`q :: qs`, `fastest` returns their minimum, `slowest` their maximum and
`mean` their sum divided by their count; on an entry with an empty
history each of the three fails with `InsufficientData`. -/
theorem c9_stats_min_max_mean :
    (∀ (st : PT) (i : Nat) (h : i < st.responses.length) (q : ℚ) (qs : List ℚ),
        st.responses[i] = (q :: qs).map some →
        fastestIdx st i = .ok (qs.foldl min q) ∧
        qs.foldl min q ∈ q :: qs ∧ (∀ x ∈ q :: qs, qs.foldl min q ≤ x) ∧
        slowestIdx st i = .ok (qs.foldl max q) ∧
        qs.foldl max q ∈ q :: qs ∧ (∀ x ∈ q :: qs, x ≤ qs.foldl max q) ∧
        meanIdx st i = .ok ((q :: qs).sum / ((q :: qs).length : ℚ))) ∧
    (∀ (st : PT) (i : Nat) (h : i < st.responses.length),
        st.responses[i] = [] →
        fastestIdx st i = .error .insufficientData ∧
        slowestIdx st i = .error .insufficientData ∧
        meanIdx st i = .error .insufficientData) := by
  constructor
  · intro st i h q qs hget
    refine ⟨?_, foldl_min_mem qs q, foldl_min_le qs q, ?_,
      foldl_max_mem qs q, foldl_max_ge qs q, ?_⟩
    all_goals
      simp [fastestIdx, slowestIdx, meanIdx, doStatIdx, h, hget,
        pyMin_map_some, pyMax_map_some, pyMean_map_some]
  · intro st i h hget
    refine ⟨?_, ?_, ?_⟩
    all_goals
      simp [fastestIdx, slowestIdx, meanIdx, doStatIdx, h, hget,
        pyMin, pyMax, pyMean, pyExtract]

/-- A ledger for exercising the statistics claims: entry 0 has recorded
history 10, 20, 30 ms; entry 1 has recorded nothing yet. -/
def ptStats : PT :=
  { addresses := ["a", "b"]
    times := [⟨none, false, 3, []⟩, ⟨none, false, 0, []⟩]
    pings := [0, 1]
    responses := [[some 10, some 20, some 30], []]
    procs := [.running, .noProcess] }

/-- Witness for C9: history 10, 20, 30 gives fastest 10, slowest 30,
mean 20; the empty history gives `InsufficientData` three times. -/
theorem c9_stats_min_max_mean_witness :
    fastestIdx ptStats 0 = .ok (10 : ℚ) ∧
    slowestIdx ptStats 0 = .ok (30 : ℚ) ∧
    meanIdx ptStats 0 = .ok (20 : ℚ) ∧
    fastestIdx ptStats 1 = .error .insufficientData ∧
    slowestIdx ptStats 1 = .error .insufficientData ∧
    meanIdx ptStats 1 = .error .insufficientData :=
  have h1 := c9_stats_min_max_mean.1 ptStats 0 (by decide) 10 [20, 30] (by decide)
  have h2 := c9_stats_min_max_mean.2 ptStats 1 (by decide) (by decide)
  have hmin : ([(20 : ℚ), 30].foldl min 10) = (10 : ℚ) := by norm_num
  have hmax : ([(20 : ℚ), 30].foldl max 10) = (30 : ℚ) := by norm_num
  have hmean : (([(10 : ℚ), 20, 30]).sum / (([(10 : ℚ), 20, 30]).length : ℚ)) = (20 : ℚ) := by
    norm_num
  ⟨hmin ▸ h1.1, hmax ▸ h1.2.2.2.1, hmean ▸ h1.2.2.2.2.2.2, h2.1, h2.2.1, h2.2.2⟩

/-! ## C7 — remove -/

/-- `list.index` finds every member. -/
theorem indexOfStr_isSome_of_mem {l : List String} {s : String} (h : s ∈ l) :
    (indexOfStr l s).isSome := by
  induction l with
  | nil => cases h
  | cons a rest ih =>
      unfold indexOfStr
      by_cases ha : a = s
      · simp [ha]
      · rcases List.mem_cons.mp h with rfl | h2
        · exact absurd rfl ha
        · obtain ⟨k, hk⟩ := Option.isSome_iff_exists.mp (ih h2)
          simp [ha, hk]

/-- C7: `remove(i)` on a well-formed ledger with a valid index stops
entry `i`'s process and evicts entry `i` from all four parallel lists,
leaving their lengths equal and shifting every later entry down by one
index, so a former later entry is still resolvable by its address. -/
theorem c7_remove_shifts_and_preserves (st : PT) (n i : Nat)
    (ha : st.addresses.length = n) (ht : st.times.length = n)
    (hp : st.pings.length = n) (hr : st.responses.length = n)
    (hi : i < n) :
    ∃ st2 : PT,
      removeFull st (.aint i) = some (.ok (), st2) ∧
      st2.addresses = st.addresses.eraseIdx i ∧
      st2.times = st.times.eraseIdx i ∧
      st2.pings = st.pings.eraseIdx i ∧
      st2.responses = st.responses.eraseIdx i ∧
      st2.procs = st.procs.set (st.pings.getD i 0)
        (stopTotal (st.procs.getD (st.pings.getD i 0) .noProcess)) ∧
      stopTotal (st.procs.getD (st.pings.getD i 0) .noProcess) ≠ .running ∧
      st2.addresses.length = n - 1 ∧ st2.times.length = n - 1 ∧
      st2.pings.length = n - 1 ∧ st2.responses.length = n - 1 ∧
      (∀ j, i ≤ j → j + 1 < n →
        st2.addresses.getD j "" = st.addresses.getD (j + 1) "" ∧
        st2.responses.getD j [] = st.responses.getD (j + 1) []) ∧
      (∀ j, j < n → j ≠ i →
        st.addresses.getD j "" ∈ st2.addresses ∧
        (indexOfStr st2.addresses (st.addresses.getD j "")).isSome) := by
  have hia : i < st.addresses.length := by rw [ha]; exact hi
  have hit : i < st.times.length := by rw [ht]; exact hi
  have hip : i < st.pings.length := by rw [hp]; exact hi
  have hir : i < st.responses.length := by rw [hr]; exact hi
  have hrem : removeFull st (.aint i) =
      some (.ok (), ⟨st.addresses.eraseIdx i, st.times.eraseIdx i,
        st.pings.eraseIdx i, st.responses.eraseIdx i,
        st.procs.set (st.pings.get ⟨i, hip⟩)
          (stopTotal (st.procs.getD (st.pings.get ⟨i, hip⟩) .noProcess))⟩) := by
    simp [removeFull, removeAt, hia, hit, hip, hir]
  have hgd : st.pings.get ⟨i, hip⟩ = st.pings.getD i 0 := by
    simp [List.getD_eq_getElem?_getD, List.getElem?_eq_getElem hip]
  rw [hgd] at hrem
  refine ⟨_, hrem, rfl, rfl, rfl, rfl, rfl, ?_, ?_, ?_, ?_, ?_, ?_, ?_⟩
  · cases st.procs.getD (st.pings.getD i 0) .noProcess <;> simp [stopTotal]
  · rw [List.length_eraseIdx_of_lt hia, ha]
  · rw [List.length_eraseIdx_of_lt hit, ht]
  · rw [List.length_eraseIdx_of_lt hip, hp]
  · rw [List.length_eraseIdx_of_lt hir, hr]
  · intro j hij hjn
    have hja : j < (st.addresses.eraseIdx i).length := by
      rw [List.length_eraseIdx_of_lt hia, ha]; omega
    have hjr : j < (st.responses.eraseIdx i).length := by
      rw [List.length_eraseIdx_of_lt hir, hr]; omega
    have hj1a : j + 1 < st.addresses.length := by rw [ha]; exact hjn
    have hj1r : j + 1 < st.responses.length := by rw [hr]; exact hjn
    constructor
    · rw [List.getD_eq_getElem?_getD, List.getElem?_eq_getElem hja,
        List.getD_eq_getElem?_getD, List.getElem?_eq_getElem hj1a]
      simp [List.getElem_eraseIdx_of_ge _ _ _ hja hij]
    · rw [List.getD_eq_getElem?_getD, List.getElem?_eq_getElem hjr,
        List.getD_eq_getElem?_getD, List.getElem?_eq_getElem hj1r]
      simp [List.getElem_eraseIdx_of_ge _ _ _ hjr hij]
  · intro j hjn hji
    have hja : j < st.addresses.length := by rw [ha]; exact hjn
    have hmem : st.addresses.getD j "" ∈ st.addresses.eraseIdx i := by
      rw [List.getD_eq_getElem?_getD, List.getElem?_eq_getElem hja]
      rcases Nat.lt_or_ge j i with hlt | hge
      · have hj2 : j < (st.addresses.eraseIdx i).length := by
          rw [List.length_eraseIdx_of_lt hia]; omega
        have := List.getElem_eraseIdx_of_lt st.addresses i j hj2 hlt
        simp only [Option.getD_some]
        rw [← this]
        exact List.getElem_mem hj2
      · have hgt : i < j := lt_of_le_of_ne hge (Ne.symm hji)
        have hj2 : j - 1 < (st.addresses.eraseIdx i).length := by
          rw [List.length_eraseIdx_of_lt hia, ha]; omega
        have h3 := List.getElem_eraseIdx_of_ge st.addresses i (j - 1) hj2 (by omega)
        have hj1 : j - 1 + 1 = j := by omega
        simp only [Option.getD_some]
        refine List.mem_iff_getElem.mpr ⟨j - 1, hj2, ?_⟩
        rw [h3]
        simp only [hj1]
    exact ⟨hmem, indexOfStr_isSome_of_mem hmem⟩

/-- Witness for C7: removing index 1 from a 3-entry ledger; the former
entry 2 shifts to index 1 and stays resolvable by its address. -/
def ptRemove : PT :=
  { addresses := ["a", "b", "c"]
    times := [⟨none, false, 0, []⟩, ⟨none, false, 0, []⟩, ⟨none, false, 0, []⟩]
    pings := [0, 1, 2]
    responses := [[], [], []]
    procs := [.running, .running, .running] }

theorem c7_remove_shifts_and_preserves_witness :
    ∃ st2 : PT,
      removeFull ptRemove (.aint 1) = some (.ok (), st2) ∧
      st2.addresses = ptRemove.addresses.eraseIdx 1 ∧
      st2.times = ptRemove.times.eraseIdx 1 ∧
      st2.pings = ptRemove.pings.eraseIdx 1 ∧
      st2.responses = ptRemove.responses.eraseIdx 1 ∧
      st2.procs = ptRemove.procs.set (ptRemove.pings.getD 1 0)
        (stopTotal (ptRemove.procs.getD (ptRemove.pings.getD 1 0) .noProcess)) ∧
      stopTotal (ptRemove.procs.getD (ptRemove.pings.getD 1 0) .noProcess) ≠ .running ∧
      st2.addresses.length = 2 ∧ st2.times.length = 2 ∧
      st2.pings.length = 2 ∧ st2.responses.length = 2 ∧
      (∀ j, 1 ≤ j → j + 1 < 3 →
        st2.addresses.getD j "" = ptRemove.addresses.getD (j + 1) "" ∧
        st2.responses.getD j [] = ptRemove.responses.getD (j + 1) []) ∧
      (∀ j, j < 3 → j ≠ 1 →
        ptRemove.addresses.getD j "" ∈ st2.addresses ∧
        (indexOfStr st2.addresses (ptRemove.addresses.getD j "")).isSome) :=
  c7_remove_shifts_and_preserves ptRemove 3 1 rfl rfl rfl rfl (by decide)

/-! ## C3 — string selectors in `get` -/

/-- A two-entry ledger about to be pulled: entry `a` has two reply lines
buffered, entry `b` one. -/
def ptC3 : PT :=
  { addresses := ["a", "b"]
    times := [⟨none, false, 0, [pingLine1, pingLine2]⟩, ⟨none, false, 0, [pingLine3]⟩]
    pings := [0, 1]
    responses := [[], []]
    procs := [.noProcess, .noProcess] }

/-- C3, code bug: the claim says `get("a")` behaves exactly as `get(0)` —
advance only entry 0 by one sample, record that sample, return its time.
Instead, `__get_address_index` returns `self.get(0)` (a float), the
`isinstance(int)` test fails on it, and the all-addresses branch runs:
entry 0 is advanced twice, entry 1 once, and a list is returned. -/
theorem c3_string_selector_not_single_advance :
    getFull ptC3 (.astr "a") =
      some (.ok (.all [some (20 : ℚ), some (30 : ℚ)]),
        { addresses := ["a", "b"],
          times := [⟨none, false, 2, []⟩, ⟨none, false, 1, []⟩],
          pings := [0, 1],
          responses := [[some 10, some 20], [some 30]],
          procs := [.noProcess, .noProcess] }) ∧
    getFull ptC3 (.aint 0) =
      some (.ok (.single (some (10 : ℚ))),
        { addresses := ["a", "b"],
          times := [⟨none, false, 1, [pingLine2]⟩, ⟨none, false, 0, [pingLine3]⟩],
          pings := [0, 1],
          responses := [[some 10], []],
          procs := [.noProcess, .noProcess] }) ∧
    GetResult.all [some (20 : ℚ), some (30 : ℚ)] ≠ GetResult.single (some (10 : ℚ)) ∧
    [[some (10 : ℚ), some 20], [some 30]] ≠ [[some (10 : ℚ)], ([] : List (Option ℚ))] := by
  decide

/-! ## C4 — histories never contain a None time -/

/-- States with equal histories agree on the invariant. -/
theorem NoneFree.of_responses_eq {st st2 : PT}
    (he : st2.responses = st.responses) (h : NoneFree st) : NoneFree st2 := by
  intro l hl x hx
  exact h l (he ▸ hl) x hx

/-- One indexed pull preserves the invariant: the appended response is
the time component of a yielded sample, which is always a `float`. -/
theorem NoneFree.getIdx {st st1 : PT} {i : Nat} {r : Except Err (Option ℚ)}
    (hnf : NoneFree st) (h : getIdx st i = some (r, st1)) : NoneFree st1 := by
  unfold Netphys.getIdx at h
  split at h
  · split at h
    · cases h
    · cases h
      exact hnf
    · rename_i s g2 hnext
      split at h
      · rename_i hlen
        cases h
        intro l hl x hx
        rcases List.mem_or_eq_of_mem_set hl with hl2 | rfl
        · exact hnf l hl2 x hx
        · rcases List.mem_append.mp hx with hx2 | hx2
          · have hmem : st.responses.getD i [] ∈ st.responses := by
              rw [List.getD_eq_getElem?_getD, List.getElem?_eq_getElem hlen]
              exact List.getElem_mem hlen
            exact hnf _ hmem x hx2
          · rw [List.mem_singleton.mp hx2]
            have hsome := PingGen.next_ok_time_isSome hnext
            intro hc
            rw [hc] at hsome
            cases hsome
      · cases h
        exact hnf
  · cases h
    exact hnf

/-- The all-addresses loop preserves the invariant. -/
theorem NoneFree.getAllAux :
    ∀ (idxs : List Nat) (st st1 : PT) (r : Except Err (List (Option ℚ))),
      NoneFree st → getAllAux st idxs = some (r, st1) → NoneFree st1 := by
  intro idxs
  induction idxs with
  | nil =>
      intro st st1 r hnf h
      cases h
      exact hnf
  | cons i rest ih =>
      intro st st1 r hnf h
      unfold Netphys.getAllAux at h
      split at h
      · cases h
      · rename_i hidx
        cases h
        exact NoneFree.getIdx hnf hidx
      · rename_i t st' hidx
        have hnf1 := NoneFree.getIdx hnf hidx
        split at h
        · cases h
        · rename_i hrest
          cases h
          exact ih _ _ _ hnf1 hrest
        · rename_i hrest
          cases h
          exact ih _ _ _ hnf1 hrest

/-- `get` with any selector preserves the invariant. -/
theorem NoneFree.getFull {st st1 : PT} {sel : Address} {r : Except Err GetResult}
    (hnf : NoneFree st) (h : getFull st sel = some (r, st1)) : NoneFree st1 := by
  unfold Netphys.getFull at h
  split at h
  · split at h
    · cases h
    · cases h; exact NoneFree.getIdx hnf (by assumption)
    · cases h; exact NoneFree.getIdx hnf (by assumption)
  · split at h
    · cases h
    · cases h; exact NoneFree.getAllAux _ _ _ _ hnf (by assumption)
    · cases h; exact NoneFree.getAllAux _ _ _ _ hnf (by assumption)
  · split at h
    · cases h; exact hnf
    · rename_i i hidx
      split at h
      · cases h
      · rename_i hgi
        cases h
        exact NoneFree.getIdx hnf hgi
      · rename_i t st' hgi
        have hnf1 := NoneFree.getIdx hnf hgi
        split at h
        · rename_i j
          split at h
          · cases h
          · cases h; exact NoneFree.getIdx hnf1 (by assumption)
          · cases h; exact NoneFree.getIdx hnf1 (by assumption)
        · split at h
          · cases h
          · cases h; exact NoneFree.getAllAux _ _ _ _ hnf1 (by assumption)
          · cases h; exact NoneFree.getAllAux _ _ _ _ hnf1 (by assumption)

/-- Evicting an entry preserves the invariant: the surviving histories
are a sublist of the old ones. -/
theorem NoneFree.removeAt {st : PT} {i : Nat} (hnf : NoneFree st) :
    NoneFree (Netphys.removeAt st i).2 := by
  unfold Netphys.removeAt
  have herase : ∀ l ∈ st.responses.eraseIdx i, ∀ x ∈ l, x ≠ none :=
    fun l hl => hnf l (List.mem_of_mem_eraseIdx hl)
  repeat' split
  all_goals first
    | exact herase
    | exact hnf

/-- Transport the invariant along a pair equation. -/
theorem NoneFree.of_pair_eq {p : Except Err Unit × PT} {r : Except Err Unit} {st1 : PT}
    (h : p = (r, st1)) (hp : NoneFree p.2) : NoneFree st1 := by
  rw [h] at hp
  exact hp

/-- `remove` with any selector preserves the invariant. -/
theorem NoneFree.removeFull {st st1 : PT} {sel : Address} {r : Except Err Unit}
    (hnf : NoneFree st) (h : removeFull st sel = some (r, st1)) : NoneFree st1 := by
  unfold Netphys.removeFull at h
  split at h
  · injection h with h2
    exact NoneFree.of_pair_eq h2 (NoneFree.removeAt hnf)
  · cases h
    exact hnf
  · split at h
    · cases h; exact hnf
    · split at h
      · cases h
      · cases h; exact NoneFree.getIdx hnf (by assumption)
      · rename_i t st' hgi
        have hnf1 := NoneFree.getIdx hnf hgi
        split at h
        · injection h with h2
          exact NoneFree.of_pair_eq h2 (NoneFree.removeAt hnf1)
        · cases h
          exact hnf1

/-- `stop` touches only process states. -/
theorem NoneFree.stopAllPT {st : PT} (hnf : NoneFree st) : NoneFree (stopAllPT st) :=
  NoneFree.of_responses_eq rfl hnf

/-- Any single operation preserves the invariant. -/
theorem NoneFree.applyOp {st st1 : PT} {op : Op}
    (hnf : NoneFree st) (h : applyOp st op = some st1) : NoneFree st1 := by
  unfold Netphys.applyOp at h
  match op with
  | .get sel =>
      simp only [Option.map_eq_some'] at h
      obtain ⟨⟨r, st'⟩, hg, rfl⟩ := h
      exact NoneFree.getFull hnf hg
  | .remove sel =>
      simp only [Option.map_eq_some'] at h
      obtain ⟨⟨r, st'⟩, hg, rfl⟩ := h
      exact NoneFree.removeFull hnf hg
  | .stopAll =>
      cases h
      exact NoneFree.stopAllPT hnf

/-- Sequences of operations preserve the invariant. -/
theorem NoneFree.runOps :
    ∀ (ops : List Op) (st st2 : PT),
      NoneFree st → runOps st ops = some st2 → NoneFree st2 := by
  intro ops
  induction ops with
  | nil =>
      intro st st2 hnf h
      cases h
      exact hnf
  | cons op rest ih =>
      intro st st2 hnf h
      unfold Netphys.runOps at h
      split at h
      · cases h
      · rename_i st' hop
        exact ih _ _ (NoneFree.applyOp hnf hop) h

/-- C4: from any freshly constructed ledger, after any sequence of
operations that returns, no history list contains a `None` round-trip
time — an unreachable sample's `None` is never appended, so statistics
run over responsive samples only. -/
theorem c4_history_never_none (addrs : List String) (latest : Bool)
    (bufs : List (List Line)) (ops : List Op) (st2 : PT)
    (h : runOps (mkPT addrs latest bufs) ops = some st2) : NoneFree st2 := by
  refine NoneFree.runOps ops _ st2 ?_ h
  intro l hl x hx
  simp only [mkPT, List.mem_map] at hl
  obtain ⟨a, -, rfl⟩ := hl
  cases hx

/-- Witness for C4: a one-host ledger pulled twice (once through the
all-addresses selector, once by index); the resulting history holds only
`float` times. -/
theorem c4_history_never_none_witness :
    NoneFree ⟨["a"], [⟨none, false, 2, []⟩], [0],
      [[some (10 : ℚ), some 20]], [.noProcess]⟩ :=
  c4_history_never_none ["a"] false [[pingLine1, pingLine2]]
    [.get .anone, .get (.aint 0)] _ (by decide)

end Netphys
